import Mathlib

/-!
Shallow embedding of the incremental-synchronization core of the
`us-labor-dashboard` repository (files `src/bls_api.py`, `src/config.py`,
`src/update_data.py`), together with theorems settling the specification
claims about it.

Modelling conventions:
* `pd.Timestamp(year, month, day=1)` dates (always first-of-month in this
  pipeline) are encoded as a month count `12*year + (month-1)`.
* Python `float` cell values never undergo arithmetic in this pipeline: they
  are parsed, stored, moved and compared, so they are modelled as `Rat`.
  `pd.to_numeric(x, errors="coerce")` is modelled by giving response items a
  field of type `Option Rat` (`none` = missing or unparseable, i.e. `NaN`).
* Python exceptions are modelled by the inductive `PyErr`; `except BLSError`
  clauses match on the `blsError` constructor.
* The network is an oracle `net : Nat → HttpOutcome` giving the outcome of
  `requests.post` on each attempt number.
-/

namespace USLabor

/-- A first-of-month calendar date, as produced by
`pd.Timestamp(year=year, month=month, day=1)`; encoded as a signed count of
calendar months, `idx = 12 * year + (month - 1)`. -/

structure Date where
  idx : Int
deriving DecidableEq, Repr

def Date.ofYM (year month : Int) : Date := ⟨12 * year + (month - 1)⟩

/-- The `.year` accessor of a timestamp.  `Int` division in Lean is euclidean,
which agrees with floor division for the positive divisor 12. -/

def Date.year (d : Date) : Int := d.idx / 12

/-- `d - pd.DateOffset(months = k)` on a first-of-month timestamp. -/

def Date.subMonths (d : Date) (k : Int) : Date := ⟨d.idx - k⟩

/-- Python exceptions that can surface in this pipeline.  `blsError` is the
repository's `BLSError`; its structured `cause` field models the
`{last_err}` interpolated into the final retry-exhaustion message. -/

inductive PyErr where
  | blsError (msg : String) (cause : Option PyErr)
  | valueError (msg : String)
  | keyError (msg : String)
  | httpError (status : Nat)
  | jsonError
  | connError (msg : String)

/-- Which exceptions an `except BLSError` clause catches. -/

def PyErr.isBLS : PyErr → Bool
  | .blsError _ _ => true
  | _ => false

/-- Python string comparison `a < b`: lexicographic on code points. -/

def charsLt : List Char → List Char → Bool
  | [], [] => false
  | [], _ :: _ => true
  | _ :: _, [] => false
  | a :: as, b :: bs =>
    if a.toNat < b.toNat then true
    else if b.toNat < a.toNat then false
    else charsLt as bs

/-- Python string comparison `a <= b`. -/

def pyStrLe (a b : String) : Bool := !(charsLt b.data a.data)

/-- Python `int(s)` restricted to non-empty all-digit strings, the only shapes
that matter downstream (`int(period[1:])` on strings that already passed the
`"M01" <= period <= "M12"` lexicographic filter).  Any other shape is `none`,
modelling a `ValueError`; Python additionally accepts signs, whitespace and
digit-group underscores, but for filtered period strings those inputs either
cannot occur or also end in a raised `ValueError`-class failure. -/

def parseDigits (cs : List Char) : Option Int :=
  if cs = [] then none
  else if cs.all (fun c => c.isDigit) then
    some (cs.foldl (fun acc c => 10 * acc + (c.toNat - '0'.toNat : Int)) 0)
  else none

/-! ## Tidy observations (`fetch_bls_tidy` row construction) -/

/-- One tidy row as built in `fetch_bls_tidy`: `{date, series_id, value,
footnotes}`.  `value` is `Option Rat` because the `NaN`s produced by
`errors="coerce"` live in the frame until `dropna(subset=["value"])`. -/

structure Obs where
  date : Date
  seriesId : String
  value : Option Rat
  footnotes : String
deriving DecidableEq, Repr

/-- One element of a series' `data` array in a BLS response.  `year` is
modelled already parsed (`int(item["year"])` on a well-formed response);
`period` is `none` when the field is missing or not a string; `value` is the
`pd.to_numeric(..., errors="coerce")` result; `footnotes` holds the `text`
fields of the footnote dicts, `""` for a missing/falsy text. -/

structure RespItem where
  year : Int
  period : Option String
  value : Option Rat
  footnotes : List String
deriving DecidableEq, Repr

/-- One series object of a BLS response: `{"seriesID": ..., "data": [...]}`.
Responses are modelled with the `seriesID` field present. -/

structure RespSeries where
  seriesID : String
  data : List RespItem
deriving DecidableEq, Repr

/-- The two `Results` envelope shapes accepted by `_extract_series_list`
(`{"Results": {"series": [...]}}` and `{"Results": [{"series": [...]}]}`,
the latter carrying its first element's series array), plus anything else. -/

inductive Results where
  | asDict (series : List RespSeries)
  | asList (series : List RespSeries)
  | other
deriving DecidableEq, Repr

/-- `_extract_series_list`. -/

def extractSeriesList : Results → List RespSeries
  | .asDict s => s
  | .asList s => s
  | .other => []

/-- A parsed JSON response body: `status`, `message` list, `Results`. -/

structure Payload where
  status : String
  messages : List String
  results : Results
deriving DecidableEq, Repr

/-- The lexicographic period filter `"M01" <= period <= "M12"`. -/

def monthPasses (p : String) : Bool :=
  pyStrLe "M01" p && pyStrLe p "M12"

/-- `", ".join(footnote texts)` keeping only truthy texts. -/

def joinFootnotes (fns : List String) : String :=
  String.intercalate ", " (fns.filter (fun t => t ≠ ""))

/-- Processing of one `data` item inside the row-building loop of
`fetch_bls_tidy`: skip non-string or out-of-range periods (`.ok none`),
otherwise parse `int(period[1:])` and build the `pd.Timestamp`, either of
which can raise (`.error`), and emit the row (`.ok (some _)`). -/

def processItem (sid : String) (item : RespItem) : Except PyErr (Option Obs) :=
  match item.period with
  | none => .ok none
  | some p =>
    if monthPasses p then
      match parseDigits (p.data.drop 1) with
      | none => .error (.valueError "invalid literal for int")
      | some m =>
        if 1 ≤ m ∧ m ≤ 12 then
          .ok (some { date := Date.ofYM item.year m
                      seriesId := sid
                      value := item.value
                      footnotes := joinFootnotes item.footnotes })
        else .error (.valueError "month must be in 1..12")
    else .ok none

/-- The row produced by a single item when it is kept, `none` when it is
skipped or raises; used to phrase membership claims. -/

def obsOfItem (sid : String) (item : RespItem) : Option Obs :=
  match processItem sid item with
  | .ok o => o
  | .error _ => none

/-- The inner `for item in series.get("data", [])` loop over one series: the
first raised exception aborts the whole row collection. -/

def collectItems (sid : String) : List RespItem → Except PyErr (List Obs)
  | [] => .ok []
  | item :: rest =>
    match processItem sid item with
    | .error e => .error e
    | .ok o =>
      match collectItems sid rest with
      | .error e => .error e
      | .ok os =>
        match o with
        | none => .ok os
        | some obs => .ok (obs :: os)

/-- The outer `for series in series_list` loop. -/

def collectSeries : List RespSeries → Except PyErr (List Obs)
  | [] => .ok []
  | s :: rest =>
    match collectItems s.seriesID s.data with
    | .error e => .error e
    | .ok a =>
      match collectSeries rest with
      | .error e => .error e
      | .ok b => .ok (a ++ b)

/-- Sort key of `df.sort_values(["series_id", "date"])`. -/

def obsLe (a b : Obs) : Prop :=
  charsLt a.seriesId.data b.seriesId.data = true ∨
    (a.seriesId = b.seriesId ∧ a.date.idx ≤ b.date.idx)

instance : DecidableRel obsLe := fun a b => by
  unfold obsLe; infer_instance

/-- Body of the `try` block after a JSON payload has been obtained: check the
provider `status` field, extract the series list, build rows, model the
`pd.DataFrame(rows).dropna(subset=["value"])` (which raises `KeyError` on an
empty, hence column-less, frame) and the final sort. -/

def tidyOfPayload (p : Payload) : Except PyErr (List Obs) :=
  if p.status ≠ "REQUEST_SUCCEEDED" then
    .error (.blsError
      ("BLS request failed (status=" ++ p.status ++ "): "
        ++ String.intercalate "; " p.messages) none)
  else
    match extractSeriesList p.results with
    | [] => .error (.blsError "BLS response had no series data." none)
    | s :: rest =>
      match collectSeries (s :: rest) with
      | .error e => .error e
      | .ok rows =>
        if rows.isEmpty then .error (.keyError "value")
        else .ok (List.insertionSort obsLe (rows.filter (fun o => o.value.isSome)))

/-! ## The retry loop of `fetch_bls_tidy` -/

/-- What one `requests.post` call yields: a raised exception (connection
error, timeout, ...) or an HTTP response with a status code and a body
(`none` = `resp.json()` raises). -/

inductive HttpOutcome where
  | exn (e : PyErr)
  | resp (status : Nat) (body : Option Payload)

/-- Net effect of one iteration of the retry loop on outcome `h`:
transient-status `continue`, a caught exception, or a returned row list. -/

def runAttempt (h : HttpOutcome) : Except PyErr (List Obs) ⊕ Unit :=
  match h with
  | .exn e => .inl (.error e)
  | .resp st body =>
    if st = 429 ∨ st = 500 ∨ st = 502 ∨ st = 503 ∨ st = 504 then .inr ()
    else if 400 ≤ st then .inl (.error (.httpError st))
    else
      match body with
      | none => .inl (.error .jsonError)
      | some p => .inl (tidyOfPayload p)

/-- Whether an attempt outcome returns successfully from the loop. -/

def attemptSucceeds (h : HttpOutcome) : Bool :=
  match runAttempt h with
  | .inl (.ok _) => true
  | _ => false

/-- Whether an attempt outcome hits the transient-status `continue`. -/

def attemptTransient (h : HttpOutcome) : Bool :=
  match runAttempt h with
  | .inr _ => true
  | _ => false

/-- Result of a `fetch_bls_tidy` run together with its observable trace: the
`time.sleep` durations in order, and how many HTTP requests were issued. -/

structure FetchTrace where
  result : Except PyErr (List Obs)
  sleeps : List Nat
  attempts : Nat

/-- The `BLSError` raised after the retry budget is exhausted, carrying the
last caught exception (the Python code interpolates `last_err` into the
message; the cause is kept structurally here). -/

def fetchFinalErr (maxRetries : Nat) (lastErr : Option PyErr) : PyErr :=
  .blsError ("BLS request failed after " ++ toString maxRetries ++ " attempts")
    lastErr

/-- The loop `for attempt in range(1, max_retries + 1)` of `fetch_bls_tidy`,
by remaining-iteration count: a transient status sleeps `2 * attempt` and
continues without touching `last_err`; any caught exception records itself in
`last_err` and sleeps `1 * attempt`; success returns at once. -/

def fetchTidyGo (net : Nat → HttpOutcome) (maxRetries : Nat) :
    Nat → Nat → Option PyErr → FetchTrace
  | 0, _, lastErr =>
    { result := .error (fetchFinalErr maxRetries lastErr), sleeps := [], attempts := 0 }
  | fuel + 1, attempt, lastErr =>
    match runAttempt (net attempt) with
    | .inl (.ok obs) => { result := .ok obs, sleeps := [], attempts := 1 }
    | .inr _ =>
      let t := fetchTidyGo net maxRetries fuel (attempt + 1) lastErr
      { result := t.result, sleeps := 2 * attempt :: t.sleeps, attempts := t.attempts + 1 }
    | .inl (.error e) =>
      let t := fetchTidyGo net maxRetries fuel (attempt + 1) (some e)
      { result := t.result, sleeps := 1 * attempt :: t.sleeps, attempts := t.attempts + 1 }

/-- `fetch_bls_tidy`: validate `api_version` against the `BLS_ENDPOINTS` keys
(a `ValueError`, before any request), then run the retry loop.  `series_ids`,
`startyear` and `endyear` only shape the request body, which the oracle `net`
already accounts for. -/

def fetch_bls_tidy (seriesIds : List String) (apiVersion : String)
    (net : Nat → HttpOutcome) (maxRetries : Nat) : FetchTrace :=
  if apiVersion = "v2" ∨ apiVersion = "v1" then
    fetchTidyGo net maxRetries maxRetries 1 none
  else
    { result := .error (.valueError "api_version must be one of ['v2', 'v1']")
      sleeps := [], attempts := 0 }

/-! ## Wide frames (`fetch_bls_wide` and the merge in `update_data.py`) -/

/-- One row of a wide table: the `date` cell plus the non-date cells as an
association list; a column absent from the list reads as `NaN`/`pd.NA`. -/

structure Row where
  date : Date
  cells : List (String × Rat)
deriving DecidableEq, Repr

/-- Cell lookup by column name. -/

def lookupCell (c : String) : List (String × Rat) → Option Rat
  | [] => none
  | (c', v) :: rest => if c' = c then some v else lookupCell c rest

def Row.get (r : Row) (c : String) : Option Rat := lookupCell c r.cells

/-- A wide `DataFrame`: the `date` column (held inside each row) plus the
other columns in order. -/

structure Frame where
  cols : List String
  rows : List Row
deriving DecidableEq, Repr

/-- Comparison used by `sort_values("date")` / `sort_index()`. -/

def rowLe (a b : Row) : Prop := a.date.idx ≤ b.date.idx

instance : DecidableRel rowLe := fun a b => by unfold rowLe; infer_instance

instance : IsTotal Row rowLe := ⟨fun a b => Int.le_total a.date.idx b.date.idx⟩

instance : IsTrans Row rowLe := ⟨fun _ _ _ h h' => le_trans h h'⟩

/-- Date-sorting of rows.  The pandas sort is not stable in general, but every
sort in this pipeline runs on rows with pairwise-distinct dates, where all
comparison sorts agree with this insertion sort. -/

def sortByDate (rows : List Row) : List Row := List.insertionSort rowLe rows

/-- The duplicate-key check performed by `DataFrame.pivot`, which raises when
two tidy rows share the same `(date, series_id)`. -/

def hasDupKey : List (Int × String) → Bool
  | [] => false
  | k :: ks => ks.contains k || hasDupKey ks

def pivotKeys (obs : List Obs) : List (Int × String) :=
  obs.map (fun o => (o.date.idx, o.seriesId))

/-- The frame built by
`tidy.pivot(index="date", columns="series_id", values="value").sort_index().reset_index()`:
columns are the distinct `series_id` values present in the tidy rows, sorted;
one row per distinct date, ascending; a `NaN` value yields an absent cell. -/

def pivotFrame (obs : List Obs) : Frame :=
  { cols := List.insertionSort (fun a b => pyStrLe a b = true)
      ((obs.map (fun o => o.seriesId)).dedup)
    rows := (List.insertionSort (· ≤ ·) ((obs.map (fun o => o.date.idx)).dedup)).map
      (fun i =>
        { date := ⟨i⟩
          cells := obs.filterMap (fun o =>
            if o.date.idx = i then o.value.map (fun v => (o.seriesId, v)) else none) }) }

instance : DecidableRel (fun a b => pyStrLe a b = true) := fun _ _ => by infer_instance

/-- `DataFrame.pivot`, including its duplicate-entry `ValueError`. -/

def pivotWide (obs : List Obs) : Except PyErr Frame :=
  if hasDupKey (pivotKeys obs) then
    .error (.valueError "Index contains duplicate entries, cannot reshape")
  else .ok (pivotFrame obs)

/-- `fetch_bls_wide`: call `fetch_bls_tidy` (with its default
`max_retries = 3`, which the wrapper does not override) and pivot; all tidy
failures, and the pivot's own `ValueError`, propagate. -/

def fetch_bls_wide (seriesIds : List String) (apiVersion : String)
    (net : Nat → HttpOutcome) : Except PyErr Frame :=
  match (fetch_bls_tidy seriesIds apiVersion net 3).result with
  | .error e => .error e
  | .ok obs => pivotWide obs

/-! ## `update_data.py` -/

/-- Truthiness of `api_key = os.getenv("BLS_API_KEY")`: `None` and the empty
string are falsy. -/

def keyTruthy : Option String → Bool
  | none => false
  | some s => s ≠ ""

/-- One call to `fetch_bls_wide` as issued by `update_dataset`, for tracing
request behaviour (the `series_ids` argument is always the full catalog key
list and is left implicit in the oracle). -/

structure FetchReq where
  startyear : Int
  endyear : Int
  version : String
  key : Option String
deriving DecidableEq, Repr

/-- Result of an `update_dataset` run: the returned `(combined_df,
api_version_used)` or the propagated exception, plus the trace of
`fetch_bls_wide` calls issued. -/

structure SyncResult where
  result : Except PyErr (Frame × String)
  requests : List FetchReq

/-- Step 2 of `update_dataset`: the `try/except BLSError` fetch with the
v2-to-v1 fallback.  Only a `BLSError` is caught, and the fallback fires only
when the preferred version is `"v2"` and the key is falsy; the fallback call
uses `api_key=None` and is not itself protected. -/

def syncFetchStep (sy ey : Int) (preferred : String) (apiKey : Option String)
    (fetchW : Int → Int → String → Option String → Except PyErr Frame) :
    Except PyErr (Frame × String) × List FetchReq :=
  match fetchW sy ey preferred apiKey with
  | .ok new => (.ok (new, preferred), [⟨sy, ey, preferred, apiKey⟩])
  | .error e =>
    if e.isBLS && (preferred = "v2" && !keyTruthy apiKey) then
      match fetchW sy ey "v1" none with
      | .ok new => (.ok (new, "v1"), [⟨sy, ey, preferred, apiKey⟩, ⟨sy, ey, "v1", none⟩])
      | .error e2 => (.error e2, [⟨sy, ey, preferred, apiKey⟩, ⟨sy, ey, "v1", none⟩])
    else (.error e, [⟨sy, ey, preferred, apiKey⟩])

/-- `max_date = old["date"].max()`: the maximum of the date column, `none`
(`NaT`) for an empty frame. -/

def maxD (rows : List Row) : Option Date :=
  ((rows.map (fun r => r.date.idx)).max?).map (fun i => ⟨i⟩)

/-- Restriction of a row to the expected columns, in order: the net effect on
one row of adding `pd.NA` columns for missing expected columns and then
selecting `combined[expected_cols]`. -/

def Row.restrict (sids : List String) (r : Row) : Row :=
  { date := r.date
    cells := sids.filterMap (fun c => (r.get c).map (fun v => (c, v))) }

/-- Lines 162-167 of `update_data.py`: ensure every expected column exists
(absent-filled) and reorder to the stable `["date"] + series_ids` order. -/

def Frame.reindex (f : Frame) (expected : List String) : Frame :=
  { cols := expected, rows := f.rows.map (Row.restrict expected) }

/-- `drop_duplicates(subset=["date"], keep="last")`: keep, in order, each row
whose date does not recur later. -/

def dedupKeepLast : List Row → List Row
  | [] => []
  | r :: rs =>
    if rs.any (fun x => decide (x.date = r.date)) then dedupKeepLast rs
    else r :: dedupKeepLast rs

/-- `pd.concat([old_keep, new], ignore_index=True)`: rows appended, columns
aligned by name over the union (first frame's columns first). -/

def Frame.concatF (f g : Frame) : Frame :=
  { cols := f.cols ++ g.cols.filter (fun c => !f.cols.contains c)
    rows := f.rows ++ g.rows }

/-- Step 3 of `update_dataset` (lines 157-174): concatenate kept old rows
before the fresh rows (or take `new.copy()` when nothing was kept),
absent-fill and reorder columns, de-duplicate by date keeping the last-seen
row, and sort ascending by date. -/

def updateMerge (sids : List String) (oldKeep new : Frame) : Frame :=
  let combined := if oldKeep.rows.isEmpty then new else Frame.concatF oldKeep new
  let combined := combined.reindex sids
  { cols := combined.cols, rows := sortByDate (dedupKeepLast combined.rows) }

/-- Steps 2-3 for an already-determined window and kept slice. -/

def finishUpdate (sids : List String) (oldKeep : Frame) (sy ey : Int)
    (preferred : String) (apiKey : Option String)
    (fetchW : Int → Int → String → Option String → Except PyErr Frame) :
    SyncResult :=
  match syncFetchStep sy ey preferred apiKey fetchW with
  | (.error e, reqs) => { result := .error e, requests := reqs }
  | (.ok (new, used), reqs) =>
    { result := .ok (updateMerge sids oldKeep new, used), requests := reqs }

/-- `update_dataset`.  `today` stands for `pd.Timestamp.utcnow()` (only its
year is used); `oldData` is the stored CSV when `data_path.exists()`; `fetchW`
is the `fetch_bls_wide` oracle.  A present but row-less stored dataset makes
`int(refresh_start.year)` fail on `NaT` before any request, modelled as a
`ValueError`.  The final CSV/JSON writes have no effect on the returned value
and are not modelled. -/

def update_dataset (today : Date) (seriesIds : List String)
    (oldData : Option Frame) (refreshMonths initialYears : Int)
    (preferredApiVersion : String) (apiKey : Option String)
    (fetchW : Int → Int → String → Option String → Except PyErr Frame) :
    SyncResult :=
  let endyear := today.year
  match oldData with
  | some oldF =>
    let old : Frame := { oldF with rows := sortByDate oldF.rows }
    match maxD old.rows with
    | none => { result := .error (.valueError "NaTType"), requests := [] }
    | some maxDate =>
      let startyear := (maxDate.subMonths refreshMonths).year
      let cutoff := Date.ofYM startyear 1
      let oldKeep : Frame :=
        { old with rows := old.rows.filter (fun r => decide (r.date.idx < cutoff.idx)) }
      finishUpdate seriesIds oldKeep startyear endyear preferredApiVersion apiKey fetchW
  | none =>
    let startyear := endyear - initialYears + 1
    finishUpdate seriesIds { cols := [], rows := [] } startyear endyear
      preferredApiVersion apiKey fetchW

/-! ## Observation functions used to state the claims -/

/-- The unique row of a frame holding date `d`, read the way the keep-last
de-duplication does: the last row carrying that date (frames produced by the
merge hold at most one). -/

def lastD (rows : List Row) (d : Date) : Option Row :=
  (rows.filter (fun r => decide (r.date = d))).getLast?

/-- The cell of a frame at date `d`, column `c` (`none` = no such row, or an
absent cell). -/

def frameAt (f : Frame) (d : Date) (c : String) : Option Rat :=
  (lastD f.rows d).bind (fun r => r.get c)

/-- Strict version of `rowLe`: strictly ascending dates. -/

def rowLt (a b : Row) : Prop := a.date.idx < b.date.idx

instance : DecidableRel rowLt := fun a b => by unfold rowLt; infer_instance

/-! ## Helper lemmas -/

/-! ## Claim theorems -/

def c1Old : Frame :=
  { cols := ["A"], rows := [{ date := Date.ofYM 2024 6, cells := [("A", 31)] }] }

def c1New : Frame :=
  { cols := ["A"], rows := [{ date := Date.ofYM 2024 6, cells := [("A", 33)] }] }

def c2Frame : Frame :=
  { cols := ["A"], rows := [{ date := Date.ofYM 2024 10, cells := [("A", 5)] }] }

def c2FetchW : Int → Int → String → Option String → Except PyErr Frame :=
  fun _ _ _ _ => .ok { cols := [], rows := [] }

def c3FetchW : Int → Int → String → Option String → Except PyErr Frame :=
  fun _ _ v _ =>
    if v = "v2" then .error (.blsError "v2 refused" none)
    else .ok { cols := [], rows := [] }

def sOld : Frame :=
  { cols := ["A"]
    rows := [{ date := Date.ofYM 2020 1, cells := [("A", 10)] },
             { date := Date.ofYM 2024 1, cells := [("A", 20)] }] }

def sNew : Frame :=
  { cols := ["A"], rows := [{ date := Date.ofYM 2023 1, cells := [("A", 30)] }] }

def sFetchW : Int → Int → String → Option String → Except PyErr Frame :=
  fun _ _ _ _ => .ok sNew

def sRun : SyncResult :=
  update_dataset (Date.ofYM 2025 3) ["A"] (some sOld) 24 10 "v2" none sFetchW

def sF : Frame :=
  match sRun.result with
  | .ok (F, _) => F
  | .error _ => ⟨[], []⟩

def c9Frame : Frame :=
  { cols := ["A"]
    rows := [{ date := Date.ofYM 2023 1, cells := [("A", 1)] },
             { date := Date.ofYM 2024 1, cells := [("A", 2)] }] }

/-- The last exception caught over attempts `a, a+1, ..., a+fuel-1`, starting
from `acc`: the value `last_err` holds when the loop exits. -/

def collectLast (net : Nat → HttpOutcome) : Nat → Nat → Option PyErr → Option PyErr
  | _, 0, acc => acc
  | a, fuel + 1, acc =>
    collectLast net (a + 1) fuel
      (match runAttempt (net a) with
       | .inl (.error e) => some e
       | _ => acc)

def c6Net : Nat → HttpOutcome :=
  fun a => if a = 1 then .resp 429 none else .exn (.connError "connection reset")

def c7ItemM13 : RespItem :=
  { year := 2024, period := some "M13", value := some 7, footnotes := [] }

def c7ItemMay : RespItem :=
  { year := 2024, period := some "M05", value := some 2, footnotes := [] }

def c7ItemJun : RespItem :=
  { year := 2024, period := some "M06", value := none, footnotes := [] }

def c7Series : RespSeries :=
  { seriesID := "A", data := [c7ItemM13, c7ItemMay, c7ItemJun] }

def c7Pay : Payload :=
  { status := "REQUEST_SUCCEEDED", messages := [], results := .asDict [c7Series] }

def c7Out : List Obs :=
  [{ date := Date.ofYM 2024 5, seriesId := "A", value := some 2, footnotes := "" }]

/-! ## Claim C5 -/

def c5Pay : Payload :=
  { status := "REQUEST_SUCCEEDED", messages := [],
    results := .asDict
      [{ seriesID := "A",
         data := [{ year := 2024, period := some "M01", value := some 1, footnotes := [] }] },
       { seriesID := "B", data := [] }] }

def c5Net : Nat → HttpOutcome := fun _ => .resp 200 (some c5Pay)

def c5Expected : Frame :=
  { cols := ["A"], rows := [{ date := Date.ofYM 2024 1, cells := [("A", 1)] }] }

def c5Obs : Obs :=
  { date := Date.ofYM 2024 1, seriesId := "A", value := some 1, footnotes := "" }

/-! ## Theorems -/

/-! ## Theorems -/

theorem maxD_perm {l l' : List Row} (h : l.Perm l') : maxD l = maxD l' := by
  unfold maxD
  have hp : (l.map (fun r => r.date.idx)).Perm (l'.map (fun r => r.date.idx)) :=
    h.map _
  have hanti : Std.Antisymm (fun x1 x2 : Int => x1 ≤ x2) :=
    ⟨fun h h' => le_antisymm h h'⟩
  have hiff : ∀ (u w : List Int), u.Perm w → ∀ a : Int,
      u.max? = some a → w.max? = some a := by
    intro u w hxy a hxs
    have hchar := (@List.max?_eq_some_iff Int a _ _ hanti
      (fun b : Int => le_refl b) (fun b c => max_choice b c)
      (fun _ _ _ => max_le_iff) u).1 hxs
    have hne : w ≠ [] := by
      intro hnil
      subst hnil
      exact absurd (hxy.mem_iff.1 hchar.1) (by simp)
    cases hys : w.max? with
    | none => exact absurd (List.max?_eq_none_iff.1 hys) hne
    | some b =>
      have hcharb := (@List.max?_eq_some_iff Int b _ _ hanti
        (fun b : Int => le_refl b) (fun b c => max_choice b c)
        (fun _ _ _ => max_le_iff) w).1 hys
      have hab : a = b :=
        le_antisymm (hcharb.2 a (hxy.mem_iff.1 hchar.1))
          (hchar.2 b (hxy.mem_iff.2 hcharb.1))
      rw [hab]
  cases hl : (l.map (fun r => r.date.idx)).max? with
  | none =>
    have : l.map (fun r => r.date.idx) = [] := List.max?_eq_none_iff.1 hl
    have : l'.map (fun r => r.date.idx) = [] := by
      cases hl' : l'.map (fun r => r.date.idx) with
      | nil => rfl
      | cons x xs =>
        rw [this, hl'] at hp
        exact absurd hp.symm (by simp)
    simp [this]
  | some a => rw [hiff _ _ hp a hl]

theorem maxD_sortByDate (l : List Row) : maxD (sortByDate l) = maxD l :=
  maxD_perm (List.perm_insertionSort rowLe l)

theorem restrict_get (sids : List String) (r : Row) (c : String) :
    (Row.restrict sids r).get c = if c ∈ sids then r.get c else none := by
  show lookupCell c (sids.filterMap fun c' => (r.get c').map fun v => (c', v)) = _
  induction sids with
  | nil => simp [lookupCell]
  | cons c' rest ih =>
    rw [List.filterMap_cons]
    cases hv : r.get c' with
    | none =>
      simp only [Option.map_none']
      rw [ih]
      by_cases hc : c = c'
      · subst hc
        by_cases hm : c ∈ rest <;> simp [hm, hv]
      · simp [List.mem_cons, hc]
    | some v =>
      simp only [Option.map_some']
      show lookupCell c ((c', v) :: _) = _
      rw [lookupCell]
      by_cases hc : c' = c
      · subst hc
        rw [if_pos rfl]
        simp [hv]
      · rw [if_neg hc, ih]
        have hcc : c ≠ c' := fun h => hc h.symm
        simp [List.mem_cons, hcc]

theorem restrict_date (sids : List String) (r : Row) :
    (Row.restrict sids r).date = r.date := rfl

theorem mem_dedupKeepLast {l : List Row} {r : Row} (h : r ∈ dedupKeepLast l) :
    r ∈ l := by
  induction l with
  | nil => simpa [dedupKeepLast] using h
  | cons a t ih =>
    rw [dedupKeepLast] at h
    by_cases ha : t.any (fun x => decide (x.date = a.date)) = true
    · rw [if_pos ha] at h
      exact List.mem_cons_of_mem a (ih h)
    · rw [if_neg ha] at h
      rcases List.mem_cons.1 h with h1 | h2
      · exact h1 ▸ List.mem_cons_self a t
      · exact List.mem_cons_of_mem a (ih h2)

theorem lastD_dedupKeepLast (l : List Row) (d : Date) :
    lastD (dedupKeepLast l) d = lastD l d := by
  induction l with
  | nil => rfl
  | cons a t ih =>
    rw [dedupKeepLast]
    by_cases ha : t.any (fun x => decide (x.date = a.date)) = true
    · rw [if_pos ha, ih]
      unfold lastD
      by_cases had : a.date = d
      · rw [List.filter_cons_of_pos (by simpa using had)]
        rcases List.any_eq_true.1 ha with ⟨x, hx, hxd⟩
        have hxd' : x.date = d := (of_decide_eq_true hxd).trans had
        have hne : t.filter (fun r => decide (r.date = d)) ≠ [] := by
          intro hnil
          have := List.filter_eq_nil_iff.1 hnil x hx
          simp [hxd'] at this
        cases hcons : t.filter (fun r => decide (r.date = d)) with
        | nil => exact absurd hcons hne
        | cons y ys => rw [List.getLast?_cons_cons]
      · rw [List.filter_cons_of_neg (by simpa using had)]
    · rw [if_neg ha]
      unfold lastD
      by_cases had : a.date = d
      · rw [List.filter_cons_of_pos (by simpa using had),
          List.filter_cons_of_pos (by simpa using had)]
        have hnil : ∀ t' : List Row, (∀ x ∈ t', x ∈ t) →
            t'.filter (fun r => decide (r.date = d)) = [] := by
          intro t' hsub
          refine List.filter_eq_nil_iff.2 fun x hx => ?_
          have hxt : x ∈ t := hsub x hx
          intro hxd
          have : x.date = a.date := (of_decide_eq_true hxd).trans had.symm
          exact ha (List.any_eq_true.2 ⟨x, hxt, by simp [this]⟩)
        rw [hnil t (fun x hx => hx), hnil (dedupKeepLast t) (fun x hx => mem_dedupKeepLast hx)]
      · rw [List.filter_cons_of_neg (by simpa using had),
          List.filter_cons_of_neg (by simpa using had)]
        exact ih

theorem nodup_dates_dedupKeepLast (l : List Row) :
    ((dedupKeepLast l).map (fun r => r.date)).Nodup := by
  induction l with
  | nil => simp [dedupKeepLast]
  | cons a t ih =>
    rw [dedupKeepLast]
    by_cases ha : t.any (fun x => decide (x.date = a.date)) = true
    · rw [if_pos ha]; exact ih
    · rw [if_neg ha]
      rw [List.map_cons, List.nodup_cons]
      refine ⟨fun hmem => ?_, ih⟩
      rcases List.mem_map.1 hmem with ⟨x, hx, hxd⟩
      exact ha (List.any_eq_true.2 ⟨x, mem_dedupKeepLast hx, by simp [hxd]⟩)

theorem dedupKeepLast_eq_self {l : List Row}
    (h : (l.map (fun r => r.date)).Nodup) : dedupKeepLast l = l := by
  induction l with
  | nil => rfl
  | cons a t ih =>
    rw [List.map_cons, List.nodup_cons] at h
    rw [dedupKeepLast, if_neg, ih h.2]
    intro hany
    rcases List.any_eq_true.1 hany with ⟨x, hx, hxd⟩
    exact h.1 (List.mem_map.2 ⟨x, hx, of_decide_eq_true hxd⟩)

theorem length_filter_date_le_one {l : List Row}
    (h : (l.map (fun r => r.date)).Nodup) (d : Date) :
    (l.filter (fun r => decide (r.date = d))).length ≤ 1 := by
  induction l with
  | nil => simp
  | cons a t ih =>
    rw [List.map_cons, List.nodup_cons] at h
    by_cases had : a.date = d
    · rw [List.filter_cons_of_pos (by simpa using had)]
      have : t.filter (fun r => decide (r.date = d)) = [] := by
        refine List.filter_eq_nil_iff.2 fun x hx hxd => ?_
        exact h.1 (List.mem_map.2 ⟨x, hx, (of_decide_eq_true hxd).trans had.symm⟩)
      simp [this]
    · rw [List.filter_cons_of_neg (by simpa using had)]
      exact ih h.2

theorem filter_eq_of_perm_of_le_one {l l' : List Row}
    (hperm : l.Perm l') (p : Row → Bool) (hlen : (l.filter p).length ≤ 1) :
    l.filter p = l'.filter p := by
  have hp := hperm.filter p
  cases hf : l.filter p with
  | nil =>
    rw [hf] at hp
    exact (List.Perm.nil_eq hp).symm ▸ rfl
  | cons x xs =>
    rw [hf] at hp hlen
    cases xs with
    | nil =>
      cases hf' : l'.filter p with
      | nil => rw [hf'] at hp; exact absurd hp.symm (by simp)
      | cons y ys =>
        rw [hf'] at hp
        have hlen' := hp.length_eq
        cases ys with
        | nil =>
          have : x = y := by
            have := hp.mem_iff.1 (List.mem_cons_self x [])
            simpa using this
          rw [this]
        | cons z zs => simp at hlen'
    | cons y ys => simp at hlen

theorem lastD_of_perm {l l' : List Row} (hperm : l.Perm l')
    (hnodup : (l.map (fun r => r.date)).Nodup) (d : Date) :
    lastD l d = lastD l' d := by
  unfold lastD
  rw [filter_eq_of_perm_of_le_one hperm _ (length_filter_date_le_one hnodup d)]

theorem lastD_append (a b : List Row) (d : Date) :
    lastD (a ++ b) d = (lastD b d).or (lastD a d) := by
  unfold lastD
  rw [List.filter_append, List.getLast?_append]

theorem lastD_map_restrict (sids : List String) (l : List Row) (d : Date) :
    lastD (l.map (Row.restrict sids)) d = (lastD l d).map (Row.restrict sids) := by
  unfold lastD
  rw [List.filter_map]
  · rw [List.getLast?_map]
    rfl

theorem sorted_cut_partition (c : Int) (l : List Row)
    (hs : List.Sorted rowLe l) :
    l.filter (fun r => decide (r.date.idx < c))
      ++ l.filter (fun r => !decide (r.date.idx < c)) = l := by
  induction l with
  | nil => rfl
  | cons a t ih =>
    rw [List.sorted_cons] at hs
    by_cases hc : a.date.idx < c
    · rw [List.filter_cons_of_pos (by simpa using hc),
        List.filter_cons_of_neg (by simpa using hc)]
      rw [List.cons_append, ih hs.2]
    · rw [List.filter_cons_of_neg (by simpa using hc),
        List.filter_cons_of_pos (by simpa using hc)]
      have hnil : t.filter (fun r => decide (r.date.idx < c)) = [] := by
        refine List.filter_eq_nil_iff.2 fun x hx hxc => ?_
        have := hs.1 x hx
        unfold rowLe at this
        exact hc (lt_of_le_of_lt this (of_decide_eq_true hxc))
      have hall : t.filter (fun r => !decide (r.date.idx < c)) = t := by
        refine List.filter_eq_self.2 fun x hx => ?_
        have := hs.1 x hx
        unfold rowLe at this
        simp only [Bool.not_eq_true']
        exact decide_eq_false fun hxc => hc (lt_of_le_of_lt this hxc)
      rw [hnil, hall]
      rfl

theorem updateMerge_rows (sids : List String) (oldKeep new : Frame) :
    (updateMerge sids oldKeep new).rows =
      sortByDate (dedupKeepLast
        ((oldKeep.rows ++ new.rows).map (Row.restrict sids))) := by
  unfold updateMerge Frame.reindex Frame.concatF
  by_cases h : oldKeep.rows.isEmpty
  · have : oldKeep.rows = [] := by
      cases hr : oldKeep.rows with
      | nil => rfl
      | cons x xs => rw [hr] at h; simp at h
    simp [h, this]
  · simp [h]

theorem updateMerge_cols (sids : List String) (oldKeep new : Frame) :
    (updateMerge sids oldKeep new).cols = sids := by
  unfold updateMerge Frame.reindex
  by_cases h : oldKeep.rows.isEmpty <;> simp [h]

theorem lastD_updateMerge (sids : List String) (oldKeep new : Frame) (d : Date) :
    lastD (updateMerge sids oldKeep new).rows d =
      ((lastD new.rows d).or (lastD oldKeep.rows d)).map (Row.restrict sids) := by
  rw [updateMerge_rows]
  have hnd : ((dedupKeepLast ((oldKeep.rows ++ new.rows).map (Row.restrict sids))).map
      (fun r => r.date)).Nodup :=
    nodup_dates_dedupKeepLast _
  have hperm :
      (dedupKeepLast ((oldKeep.rows ++ new.rows).map (Row.restrict sids))).Perm
        (sortByDate (dedupKeepLast ((oldKeep.rows ++ new.rows).map (Row.restrict sids)))) :=
    (List.perm_insertionSort rowLe _).symm
  rw [← lastD_of_perm hperm hnd d, lastD_dedupKeepLast, lastD_map_restrict, lastD_append]

theorem finishUpdate_requests (sids : List String) (oldKeep : Frame) (sy ey : Int)
    (pref : String) (key : Option String) (fetchW) :
    (finishUpdate sids oldKeep sy ey pref key fetchW).requests =
      (syncFetchStep sy ey pref key fetchW).2 := by
  unfold finishUpdate
  cases h : syncFetchStep sy ey pref key fetchW with
  | mk res reqs => cases res with
    | error e => simp
    | ok v => cases v with
      | mk new used => simp

theorem syncFetchStep_requests (sy ey : Int) (pref : String) (key : Option String)
    (fetchW) :
    (syncFetchStep sy ey pref key fetchW).2 ≠ [] ∧
      ∀ q ∈ (syncFetchStep sy ey pref key fetchW).2,
        q.startyear = sy ∧ q.endyear = ey := by
  cases h1 : fetchW sy ey pref key with
  | ok f => simp [syncFetchStep, h1]
  | error e =>
    by_cases hcond : (e.isBLS && (decide (pref = "v2") && !keyTruthy key)) = true
    · cases h2 : fetchW sy ey "v1" none with
      | ok f => simp [syncFetchStep, h1, hcond, h2]
      | error e2 => simp [syncFetchStep, h1, hcond, h2]
    · simp only [syncFetchStep, h1, if_neg hcond]
      simp

theorem syncFetchStep_ok {sy ey : Int} {pref : String} {key : Option String}
    {fetchW : Int → Int → String → Option String → Except PyErr Frame}
    {df : Frame} {u : String}
    (h : (syncFetchStep sy ey pref key fetchW).1 = .ok (df, u)) :
    fetchW sy ey pref key = .ok df ∨ fetchW sy ey "v1" none = .ok df := by
  cases h1 : fetchW sy ey pref key with
  | ok f =>
    simp [syncFetchStep, h1] at h
    exact Or.inl (by rw [h.1])
  | error e =>
    by_cases hcond : (e.isBLS && (decide (pref = "v2") && !keyTruthy key)) = true
    · cases h2 : fetchW sy ey "v1" none with
      | ok f =>
        simp [syncFetchStep, h1, hcond, h2] at h
        exact Or.inr (by rw [h.1])
      | error e2 => simp [syncFetchStep, h1, hcond, h2] at h
    · simp only [syncFetchStep, h1, if_neg hcond] at h
      simp at h

theorem syncFetchStep_ok_used {sy ey : Int} {pref : String} {key : Option String}
    {fetchW : Int → Int → String → Option String → Except PyErr Frame}
    {df : Frame} {u : String}
    (h : (syncFetchStep sy ey pref key fetchW).1 = .ok (df, u)) :
    u = pref ∨ u = "v1" := by
  cases h1 : fetchW sy ey pref key with
  | ok f =>
    simp [syncFetchStep, h1] at h
    exact Or.inl h.2.symm
  | error e =>
    by_cases hcond : (e.isBLS && (decide (pref = "v2") && !keyTruthy key)) = true
    · cases h2 : fetchW sy ey "v1" none with
      | ok f =>
        simp [syncFetchStep, h1, hcond, h2] at h
        exact Or.inr h.2.symm
      | error e2 => simp [syncFetchStep, h1, hcond, h2] at h
    · simp only [syncFetchStep, h1, if_neg hcond] at h
      simp at h

theorem finishUpdate_ok {sids : List String} {oldKeep : Frame} {sy ey : Int}
    {pref : String} {key : Option String} {fetchW} {F : Frame} {used : String}
    (h : (finishUpdate sids oldKeep sy ey pref key fetchW).result = .ok (F, used)) :
    ∃ new, (fetchW sy ey pref key = .ok new ∨ fetchW sy ey "v1" none = .ok new) ∧
      F = updateMerge sids oldKeep new := by
  unfold finishUpdate at h
  cases hs : syncFetchStep sy ey pref key fetchW with
  | mk res reqs =>
    rw [hs] at h
    cases res with
    | error e => simp at h
    | ok v =>
      cases v with
      | mk new used' =>
        simp at h
        refine ⟨new, ?_, h.1.symm⟩
        have : (syncFetchStep sy ey pref key fetchW).1 = .ok (new, used') := by
          rw [hs]
        exact syncFetchStep_ok this

/-- Claim C1: in the merge step, kept old rows are concatenated before the
fresh rows, missing configured series columns are absent-filled, rows are
de-duplicated by date keeping the last-seen row, and the result is sorted
ascending by date; consequently, for every date present in the freshly
fetched rows (in particular every date present in both sides with different
values), the merged frame's cell in any configured column is the newly
fetched one, never the old one. -/
theorem merge_revision_precedence (sids : List String) (oldKeep new : Frame)
    (d : Date) (c : String)
    (hd : d ∈ new.rows.map (fun r => r.date)) (hc : c ∈ sids) :
    List.Sorted rowLe (updateMerge sids oldKeep new).rows ∧
    frameAt (updateMerge sids oldKeep new) d c =
      (lastD new.rows d).bind (fun r => r.get c) := by
  constructor
  · rw [updateMerge_rows]
    exact List.sorted_insertionSort rowLe _
  · unfold frameAt
    rw [lastD_updateMerge]
    cases hn : lastD new.rows d with
    | none =>
      rcases List.mem_map.1 hd with ⟨r, hr, hrd⟩
      unfold lastD at hn
      have hnil := List.getLast?_eq_none_iff.1 hn
      have := List.filter_eq_nil_iff.1 hnil r hr
      simp [hrd] at this
    | some r =>
      simp only [Option.or_some, Option.map_some', Option.some_bind]
      show (Row.restrict sids r).get c = r.get c
      rw [restrict_get, if_pos hc]

theorem merge_revision_precedence_witness :
    List.Sorted rowLe (updateMerge ["A"] c1Old c1New).rows ∧
    frameAt (updateMerge ["A"] c1Old c1New) (Date.ofYM 2024 6) "A" =
      (lastD c1New.rows (Date.ofYM 2024 6)).bind (fun r => r.get "A") :=
  merge_revision_precedence ["A"] c1Old c1New (Date.ofYM 2024 6) "A"
    (by decide) (by decide)

/-- Claim C2: the request window is `startYear = currentYear - initialYears
+ 1` when no dataset exists, `startYear = year(maxDate - refreshMonths
months)` when one does, and `endYear = currentYear` in every case; every
request the run issues carries exactly these bounds. -/
theorem request_window (today : Date) (sids : List String) (rm iy : Int)
    (pref : String) (key : Option String)
    (fetchW : Int → Int → String → Option String → Except PyErr Frame) :
    ((update_dataset today sids none rm iy pref key fetchW).requests ≠ [] ∧
      ∀ q ∈ (update_dataset today sids none rm iy pref key fetchW).requests,
        q.startyear = today.year - iy + 1 ∧ q.endyear = today.year) ∧
    (∀ f : Frame, ∀ m : Date, maxD f.rows = some m →
      ((update_dataset today sids (some f) rm iy pref key fetchW).requests ≠ [] ∧
        ∀ q ∈ (update_dataset today sids (some f) rm iy pref key fetchW).requests,
          q.startyear = (m.subMonths rm).year ∧ q.endyear = today.year)) := by
  constructor
  · have hreq : (update_dataset today sids none rm iy pref key fetchW).requests =
        (syncFetchStep (today.year - iy + 1) today.year pref key fetchW).2 := by
      simp [update_dataset, finishUpdate_requests]
    rw [hreq]
    exact syncFetchStep_requests _ _ _ _ _
  · intro f m hmax
    have hmax' : maxD (sortByDate f.rows) = some m := (maxD_sortByDate f.rows).trans hmax
    have hreq : (update_dataset today sids (some f) rm iy pref key fetchW).requests =
        (syncFetchStep ((m.subMonths rm).year) today.year pref key fetchW).2 := by
      simp [update_dataset, hmax', finishUpdate_requests]
    rw [hreq]
    exact syncFetchStep_requests _ _ _ _ _

theorem request_window_witness :
    ((update_dataset (Date.ofYM 2025 3) ["A"] none 24 10 "v2" none c2FetchW).requests ≠ [] ∧
      ∀ q ∈ (update_dataset (Date.ofYM 2025 3) ["A"] none 24 10 "v2" none c2FetchW).requests,
        q.startyear = (Date.ofYM 2025 3).year - 10 + 1 ∧
          q.endyear = (Date.ofYM 2025 3).year) ∧
    ((update_dataset (Date.ofYM 2025 3) ["A"] (some c2Frame) 24 10 "v2" none
        c2FetchW).requests ≠ [] ∧
      ∀ q ∈ (update_dataset (Date.ofYM 2025 3) ["A"] (some c2Frame) 24 10 "v2" none
          c2FetchW).requests,
        q.startyear = ((Date.ofYM 2024 10).subMonths 24).year ∧
          q.endyear = (Date.ofYM 2025 3).year) :=
  ⟨(request_window (Date.ofYM 2025 3) ["A"] 24 10 "v2" none c2FetchW).1,
    (request_window (Date.ofYM 2025 3) ["A"] 24 10 "v2" none c2FetchW).2
      c2Frame (Date.ofYM 2024 10) (by decide)⟩

/-- Claim C3: with preferred version v2 and no key, a failing v2 fetch (a
`BLSError`) triggers exactly one additional request, with version v1 and no
key; if that fallback succeeds the run reports `api_version_used = "v1"`, and
if it fails its error propagates with no further request.  With a truthy key
the failure propagates at once with no fallback request. -/
theorem fallback_rule (sy ey : Int) (key : Option String)
    (fetchW : Int → Int → String → Option String → Except PyErr Frame)
    (e : PyErr) :
    (fetchW sy ey "v2" none = .error e → e.isBLS = true →
      ((syncFetchStep sy ey "v2" none fetchW).2 =
          [⟨sy, ey, "v2", none⟩, ⟨sy, ey, "v1", none⟩] ∧
        (∀ df, fetchW sy ey "v1" none = .ok df →
          (syncFetchStep sy ey "v2" none fetchW).1 = .ok (df, "v1")) ∧
        (∀ e2, fetchW sy ey "v1" none = .error e2 →
          (syncFetchStep sy ey "v2" none fetchW).1 = .error e2))) ∧
    (∀ pref, keyTruthy key = true → fetchW sy ey pref key = .error e →
      ((syncFetchStep sy ey pref key fetchW).2 = [⟨sy, ey, pref, key⟩] ∧
        (syncFetchStep sy ey pref key fetchW).1 = .error e)) := by
  constructor
  · intro h1 hbls
    refine ⟨?_, ?_, ?_⟩
    · cases h2 : fetchW sy ey "v1" none with
      | ok df => simp [syncFetchStep, h1, h2, hbls, keyTruthy]
      | error e2 => simp [syncFetchStep, h1, h2, hbls, keyTruthy]
    · intro df h2
      simp [syncFetchStep, h1, h2, hbls, keyTruthy]
    · intro e2 h2
      simp [syncFetchStep, h1, h2, hbls, keyTruthy]
  · intro pref hkey h1
    constructor <;> simp [syncFetchStep, h1, hkey]

theorem fallback_rule_witness :
    ((syncFetchStep 2022 2025 "v2" none c3FetchW).2 =
        [⟨2022, 2025, "v2", none⟩, ⟨2022, 2025, "v1", none⟩] ∧
      (syncFetchStep 2022 2025 "v2" none c3FetchW).1 =
        .ok ({ cols := [], rows := [] }, "v1")) ∧
    ((syncFetchStep 2022 2025 "v2" (some "secret") c3FetchW).2 =
        [⟨2022, 2025, "v2", some "secret"⟩] ∧
      (syncFetchStep 2022 2025 "v2" (some "secret") c3FetchW).1 =
        .error (.blsError "v2 refused" none)) :=
  ⟨⟨((fallback_rule 2022 2025 none c3FetchW (.blsError "v2 refused" none)).1
      rfl rfl).1,
    ((fallback_rule 2022 2025 none c3FetchW (.blsError "v2 refused" none)).1
      rfl rfl).2.1 { cols := [], rows := [] } rfl⟩,
    ((fallback_rule 2022 2025 (some "secret") c3FetchW
      (.blsError "v2 refused" none)).2 "v2" rfl rfl)⟩

theorem update_ok_shape {today : Date} {sids : List String} {oldData : Option Frame}
    {rm iy : Int} {pref : String} {key : Option String}
    {fetchW : Int → Int → String → Option String → Except PyErr Frame}
    {F : Frame} {used : String}
    (hrun : (update_dataset today sids oldData rm iy pref key fetchW).result
      = .ok (F, used)) :
    ∃ oldKeep new, F = updateMerge sids oldKeep new := by
  cases oldData with
  | none =>
    simp only [update_dataset] at hrun
    rcases finishUpdate_ok hrun with ⟨new, _, hF⟩
    exact ⟨_, new, hF⟩
  | some f =>
    cases hmax : maxD (sortByDate f.rows) with
    | none => simp [update_dataset, hmax] at hrun
    | some m =>
      simp only [update_dataset, hmax] at hrun
      rcases finishUpdate_ok hrun with ⟨new, _, hF⟩
      exact ⟨_, new, hF⟩

theorem update_ok_existing {today : Date} {sids : List String} {f : Frame}
    {rm iy : Int} {pref : String} {key : Option String}
    {fetchW : Int → Int → String → Option String → Except PyErr Frame}
    {F : Frame} {used : String} {m : Date}
    (hmax : maxD f.rows = some m)
    (hrun : (update_dataset today sids (some f) rm iy pref key fetchW).result
      = .ok (F, used)) :
    ∃ new, (fetchW ((m.subMonths rm).year) today.year pref key = .ok new ∨
        fetchW ((m.subMonths rm).year) today.year "v1" none = .ok new) ∧
      F = updateMerge sids
        ⟨f.cols, (sortByDate f.rows).filter
          (fun r => decide (r.date.idx < (Date.ofYM ((m.subMonths rm).year) 1).idx))⟩
        new := by
  have hmax' : maxD (sortByDate f.rows) = some m := (maxD_sortByDate f.rows).trans hmax
  simp only [update_dataset, hmax'] at hrun
  exact finishUpdate_ok hrun

/-- Claim C8: every successful run produces a frame whose columns are exactly
the catalog's SeriesIDs in declared order (after the leading date column), a
column being present even when no fetched row carries data for it; and no row
holds a cell outside those columns. -/
theorem column_completeness (today : Date) (sids : List String)
    (oldData : Option Frame) (rm iy : Int) (pref : String) (key : Option String)
    (fetchW : Int → Int → String → Option String → Except PyErr Frame)
    (F : Frame) (used : String)
    (hrun : (update_dataset today sids oldData rm iy pref key fetchW).result
      = .ok (F, used)) :
    F.cols = sids ∧ ∀ r ∈ F.rows, ∀ c, c ∉ sids → r.get c = none := by
  rcases update_ok_shape hrun with ⟨oldKeep, new, hF⟩
  subst hF
  refine ⟨updateMerge_cols _ _ _, ?_⟩
  intro r hr c hc
  rw [updateMerge_rows] at hr
  unfold sortByDate at hr
  have hr1 := (List.mem_insertionSort rowLe).1 hr
  have hr2 := mem_dedupKeepLast hr1
  rcases List.mem_map.1 hr2 with ⟨r0, _, hreq⟩
  rw [← hreq, restrict_get, if_neg hc]

theorem column_completeness_witness :
    (Frame.mk ["A"] []).cols = ["A"] ∧
      ∀ r ∈ (Frame.mk ["A"] []).rows, ∀ c, c ∉ ["A"] → r.get c = none :=
  column_completeness (Date.ofYM 2025 3) ["A"] none 24 10 "v2" none c2FetchW
    (Frame.mk ["A"] []) "v2" rfl

/-- Claim C4: on a run over an existing dataset, every date strictly before
January 1 of the computed start year keeps exactly its stored row: presence
at that date is unchanged and every configured column's cell is unchanged.
The fetched frames are assumed to honour the requested window (the provider
contract; the code does not re-filter them). -/
theorem history_preservation (today : Date) (sids : List String) (f : Frame)
    (rm iy : Int) (pref : String) (key : Option String)
    (fetchW : Int → Int → String → Option String → Except PyErr Frame)
    (F : Frame) (used : String) (m : Date)
    (hmax : maxD f.rows = some m)
    (hnodup : (f.rows.map (fun r => r.date)).Nodup)
    (hwin : ∀ sy ey v k df, fetchW sy ey v k = .ok df →
      ∀ r ∈ df.rows, (m.subMonths rm).year ≤ r.date.year)
    (hrun : (update_dataset today sids (some f) rm iy pref key fetchW).result
      = .ok (F, used))
    (d : Date) (hd : d.idx < (Date.ofYM ((m.subMonths rm).year) 1).idx) :
    (lastD F.rows d).isSome = (lastD f.rows d).isSome ∧
      ∀ c ∈ sids, frameAt F d c = frameAt f d c := by
  rcases update_ok_existing hmax hrun with ⟨new, hnew, hF⟩
  subst hF
  have hnewnil : lastD new.rows d = none := by
    unfold lastD
    rw [List.getLast?_eq_none_iff]
    refine List.filter_eq_nil_iff.2 fun r hr hrd => ?_
    have hyear : (m.subMonths rm).year ≤ r.date.year := by
      rcases hnew with h | h
      · exact hwin _ _ _ _ _ h r hr
      · exact hwin _ _ _ _ _ h r hr
    have hrd' : r.date = d := of_decide_eq_true hrd
    rw [hrd'] at hyear
    unfold Date.ofYM at hd
    unfold Date.year at hyear hd
    have hd' : d.idx < 12 * ((m.subMonths rm).idx / 12) + (1 - 1) := hd
    omega
  have hsortnd : ((sortByDate f.rows).map (fun r => r.date)).Nodup := by
    have hperm := (List.perm_insertionSort rowLe f.rows).map (fun r => r.date)
    exact hperm.nodup_iff.2 hnodup
  have hkeep : lastD ((sortByDate f.rows).filter
      (fun r => decide (r.date.idx < (Date.ofYM ((m.subMonths rm).year) 1).idx))) d
      = lastD f.rows d := by
    unfold lastD
    rw [List.filter_filter]
    have hcongr : ∀ r ∈ sortByDate f.rows,
        (decide (r.date = d) &&
          decide (r.date.idx < (Date.ofYM ((m.subMonths rm).year) 1).idx))
          = decide (r.date = d) := by
      intro r _
      by_cases hrd : r.date = d
      · simp [hrd, hd]
      · simp [hrd]
    rw [List.filter_congr hcongr]
    exact congrArg List.getLast?
      (filter_eq_of_perm_of_le_one (List.perm_insertionSort rowLe f.rows) _
        ((length_filter_date_le_one hsortnd d)))
  have hlast : lastD (updateMerge sids
      ⟨f.cols, (sortByDate f.rows).filter
        (fun r => decide (r.date.idx < (Date.ofYM ((m.subMonths rm).year) 1).idx))⟩
      new).rows d = (lastD f.rows d).map (Row.restrict sids) := by
    rw [lastD_updateMerge, hnewnil]
    show ((lastD _ d).map _) = _
    rw [hkeep]
  constructor
  · rw [hlast]
    cases lastD f.rows d <;> rfl
  · intro c hc
    unfold frameAt
    rw [hlast]
    cases lastD f.rows d with
    | none => rfl
    | some r =>
      simp only [Option.map_some', Option.some_bind]
      rw [restrict_get, if_pos hc]

theorem sFetchW_window : ∀ sy ey v k df, sFetchW sy ey v k = .ok df →
    ∀ r ∈ df.rows, ((Date.ofYM 2024 1).subMonths 24).year ≤ r.date.year := by
  intro sy ey v k df hdf r hr
  injection hdf with h
  subst h
  simp only [sNew] at hr
  rw [List.mem_singleton] at hr
  subst hr
  decide

theorem history_preservation_witness :
    (lastD sF.rows (Date.ofYM 2020 1)).isSome
        = (lastD sOld.rows (Date.ofYM 2020 1)).isSome ∧
      ∀ c ∈ ["A"], frameAt sF (Date.ofYM 2020 1) c = frameAt sOld (Date.ofYM 2020 1) c :=
  history_preservation (Date.ofYM 2025 3) ["A"] sOld 24 10 "v2" none sFetchW sF "v2"
    (Date.ofYM 2024 1) (by decide) (by decide) sFetchW_window rfl
    (Date.ofYM 2020 1) (by decide)

theorem lastD_self {l : List Row} (hnodup : (l.map (fun r => r.date)).Nodup)
    {r : Row} (hr : r ∈ l) : lastD l r.date = some r := by
  unfold lastD
  have hlen := length_filter_date_le_one hnodup r.date
  have hmem : r ∈ l.filter (fun x => decide (x.date = r.date)) :=
    List.mem_filter.2 ⟨hr, by simp⟩
  cases hf : l.filter (fun x => decide (x.date = r.date)) with
  | nil => rw [hf] at hmem; simp at hmem
  | cons y ys =>
    rw [hf] at hmem hlen
    cases ys with
    | nil =>
      rw [List.mem_singleton] at hmem
      rw [hmem]
      rfl
    | cons z zs => simp at hlen

theorem updateMerge_nodup_dates (sids : List String) (oldKeep new : Frame) :
    ((updateMerge sids oldKeep new).rows.map (fun r => r.date)).Nodup := by
  rw [updateMerge_rows]
  unfold sortByDate
  have hperm :=
    (List.perm_insertionSort rowLe
      (dedupKeepLast ((oldKeep.rows ++ new.rows).map (Row.restrict sids)))).map
      (fun r => r.date)
  exact hperm.nodup_iff.2 (nodup_dates_dedupKeepLast _)

/-- Claim C10: on a run over an existing dataset, the kept old rows all lie
in years strictly before the computed start year while fetched rows (by the
provider window contract the code relies on) lie in years at or after it, so
their date sets are disjoint; the keep-last de-duplication therefore never
discards a kept old row in favour of a fetched one — the merged frame's row
at each kept date is exactly the kept old row — and every date occurs at
most once in the merged frame. -/
theorem keep_fetch_disjoint (today : Date) (sids : List String) (f : Frame)
    (rm iy : Int) (pref : String) (key : Option String)
    (fetchW : Int → Int → String → Option String → Except PyErr Frame)
    (F : Frame) (used : String) (m : Date)
    (hmax : maxD f.rows = some m)
    (hnodup : (f.rows.map (fun r => r.date)).Nodup)
    (hwin : ∀ sy ey v k df, fetchW sy ey v k = .ok df →
      ∀ r ∈ df.rows, (m.subMonths rm).year ≤ r.date.year)
    (hrun : (update_dataset today sids (some f) rm iy pref key fetchW).result
      = .ok (F, used)) :
    (∀ r ∈ f.rows, r.date.idx < (Date.ofYM ((m.subMonths rm).year) 1).idx →
      r.date.year < (m.subMonths rm).year) ∧
    (∀ new2 : Frame, (∀ r ∈ new2.rows, (m.subMonths rm).year ≤ r.date.year) →
      ∀ r ∈ f.rows, r.date.idx < (Date.ofYM ((m.subMonths rm).year) 1).idx →
        ∀ r2 ∈ new2.rows, r.date ≠ r2.date) ∧
    ((F.rows.map (fun r => r.date)).Nodup) ∧
    (∀ r ∈ f.rows, r.date.idx < (Date.ofYM ((m.subMonths rm).year) 1).idx →
      lastD F.rows r.date = some (Row.restrict sids r)) := by
  have hyearlt : ∀ r : Row, r.date.idx < (Date.ofYM ((m.subMonths rm).year) 1).idx →
      r.date.year < (m.subMonths rm).year := by
    intro r hr
    unfold Date.ofYM at hr
    unfold Date.year at hr ⊢
    have hr' : r.date.idx < 12 * ((m.subMonths rm).idx / 12) + (1 - 1) := hr
    omega
  refine ⟨fun r hr hcut => hyearlt r hcut, ?_, ?_, ?_⟩
  · intro new2 hnew2 r hr hcut r2 hr2 heq
    have h1 := hyearlt r hcut
    have h2 := hnew2 r2 hr2
    rw [heq] at h1
    exact absurd h2 (not_le.2 h1)
  · rcases update_ok_existing hmax hrun with ⟨new, _, hF⟩
    subst hF
    exact updateMerge_nodup_dates _ _ _
  · intro r hr hcut
    rcases update_ok_existing hmax hrun with ⟨new, hnew, hF⟩
    subst hF
    have hnewnil : lastD new.rows r.date = none := by
      unfold lastD
      rw [List.getLast?_eq_none_iff]
      refine List.filter_eq_nil_iff.2 fun x hx hxd => ?_
      have hyear : (m.subMonths rm).year ≤ x.date.year := by
        rcases hnew with h | h
        · exact hwin _ _ _ _ _ h x hx
        · exact hwin _ _ _ _ _ h x hx
      have hxd' : x.date = r.date := of_decide_eq_true hxd
      rw [hxd'] at hyear
      exact absurd hyear (not_le.2 (hyearlt r hcut))
    have hsortnd : ((sortByDate f.rows).map (fun x => x.date)).Nodup := by
      have hperm := (List.perm_insertionSort rowLe f.rows).map (fun x => x.date)
      exact hperm.nodup_iff.2 hnodup
    have hkeepnd : (((sortByDate f.rows).filter
        (fun x => decide (x.date.idx < (Date.ofYM ((m.subMonths rm).year) 1).idx))).map
          (fun x => x.date)).Nodup := by
      have hsub : ((sortByDate f.rows).filter
          (fun x => decide (x.date.idx < (Date.ofYM ((m.subMonths rm).year) 1).idx))).Sublist
            (sortByDate f.rows) := List.filter_sublist _
      exact (hsub.map (fun x => x.date)).nodup hsortnd
    have hrkeep : r ∈ (sortByDate f.rows).filter
        (fun x => decide (x.date.idx < (Date.ofYM ((m.subMonths rm).year) 1).idx)) := by
      refine List.mem_filter.2 ⟨?_, by simpa using hcut⟩
      unfold sortByDate
      exact (List.mem_insertionSort rowLe).2 hr
    rw [lastD_updateMerge, hnewnil]
    show ((lastD _ r.date).map _) = _
    rw [lastD_self hkeepnd hrkeep]
    rfl

theorem keep_fetch_disjoint_witness :
    ((Date.ofYM 2020 1).idx <
        (Date.ofYM (((Date.ofYM 2024 1).subMonths 24).year) 1).idx) ∧
    ((Date.ofYM 2020 1).year < ((Date.ofYM 2024 1).subMonths 24).year) ∧
    lastD sF.rows (Date.ofYM 2020 1)
      = some (Row.restrict ["A"] { date := Date.ofYM 2020 1, cells := [("A", 10)] }) ∧
    ((sF.rows.map (fun r => r.date)).Nodup) := by
  have h := keep_fetch_disjoint (Date.ofYM 2025 3) ["A"] sOld 24 10 "v2" none
    sFetchW sF "v2" (Date.ofYM 2024 1) (by decide) (by decide) sFetchW_window rfl
  refine ⟨by decide, ?_, ?_, h.2.2.1⟩
  · exact h.1 { date := Date.ofYM 2020 1, cells := [("A", 10)] } (by decide) (by decide)
  · exact h.2.2.2 { date := Date.ofYM 2020 1, cells := [("A", 10)] } (by decide) (by decide)

@[simp]
theorem Date.idx_mk (i : Int) : (Date.mk i).idx = i := rfl

@[simp]
theorem Frame.cols_mk (c : List String) (r : List Row) : (Frame.mk c r).cols = c := rfl

@[simp]
theorem Frame.rows_mk (c : List String) (r : List Row) : (Frame.mk c r).rows = r := rfl

theorem map_eq_self_of_forall {α : Type} {l : List α} {f : α → α}
    (h : ∀ x ∈ l, f x = x) : l.map f = l := by
  induction l with
  | nil => rfl
  | cons a t ih =>
    rw [List.map_cons, h a (List.mem_cons_self a t),
      ih (fun x hx => h x (List.mem_cons_of_mem a hx))]

theorem Frame.eqOf {a b : Frame} (h1 : a.cols = b.cols) (h2 : a.rows = b.rows) :
    a = b := by
  cases a
  cases b
  cases h1
  cases h2
  rfl

/-- Claim C9: running the sync a second time when the provider reports no
changes — the fetch for the overlapping window returns exactly the rows the
stored dataset already holds there — reproduces the stored dataset
identically: same rows, same dates, same cells, and the run succeeds on the
preferred version. -/
theorem sync_idempotent (today : Date) (sids : List String) (rm iy : Int)
    (pref : String) (key : Option String) (F : Frame) (m : Date)
    (hcols : F.cols = sids)
    (hsorted : List.Pairwise rowLt F.rows)
    (hfix : ∀ r ∈ F.rows, Row.restrict sids r = r)
    (hmax : maxD F.rows = some m) :
    (update_dataset today sids (some F) rm iy pref key
      (fun _ _ _ _ => .ok (Frame.mk F.cols (F.rows.filter
        (fun r => decide ((m.subMonths rm).year ≤ r.date.year)))))).result
      = .ok (F, pref) := by
  have hle : List.Sorted rowLe F.rows := hsorted.imp (fun h => le_of_lt h)
  have hsort : sortByDate F.rows = F.rows := List.Sorted.insertionSort_eq hle
  have hnd : (F.rows.map (fun r => r.date)).Nodup := by
    refine List.pairwise_map.2 (hsorted.imp ?_)
    intro a b hab hEq
    exact absurd (congrArg Date.idx hEq) (ne_of_lt hab)
  have hmax' : maxD (sortByDate F.rows) = some m := by rw [hsort]; exact hmax
  have hpw : ∀ r : Row, decide ((m.subMonths rm).year ≤ r.date.year)
      = !decide (r.date.idx < (Date.ofYM ((m.subMonths rm).year) 1).idx) := by
    intro r
    have hiff : ((m.subMonths rm).year ≤ r.date.year) ↔
        ¬ (r.date.idx < (Date.ofYM ((m.subMonths rm).year) 1).idx) := by
      simp only [Date.year, Date.ofYM, Date.subMonths, Date.idx_mk]
      omega
    by_cases hq : r.date.idx < (Date.ofYM ((m.subMonths rm).year) 1).idx
    · have hnot : ¬ ((m.subMonths rm).year ≤ r.date.year) := fun hy => (hiff.1 hy) hq
      simp [hq, hnot]
    · simp [hq, hiff.2 hq]
  have hmerge : updateMerge sids
      ⟨F.cols, (sortByDate F.rows).filter
        (fun r => decide (r.date.idx < (Date.ofYM ((m.subMonths rm).year) 1).idx))⟩
      (Frame.mk F.cols (F.rows.filter
        (fun r => decide ((m.subMonths rm).year ≤ r.date.year)))) = F := by
    refine Frame.eqOf (by rw [updateMerge_cols, hcols]) ?_
    rw [updateMerge_rows]
    simp only [Frame.rows_mk]
    rw [hsort]
    rw [List.filter_congr (fun r _ => hpw r)]
    rw [sorted_cut_partition ((Date.ofYM ((m.subMonths rm).year) 1).idx) F.rows hle]
    rw [map_eq_self_of_forall hfix, dedupKeepLast_eq_self hnd, hsort]
  simp only [update_dataset, hmax', finishUpdate, syncFetchStep]
  rw [hmerge]

theorem sync_idempotent_witness :
    (update_dataset (Date.ofYM 2025 3) ["A"] (some c9Frame) 24 10 "v2" none
      (fun _ _ _ _ => .ok (Frame.mk c9Frame.cols (c9Frame.rows.filter
        (fun r => decide (((Date.ofYM 2024 1).subMonths 24).year ≤ r.date.year)))))).result
      = .ok (c9Frame, "v2") :=
  sync_idempotent (Date.ofYM 2025 3) ["A"] 24 10 "v2" none c9Frame (Date.ofYM 2024 1)
    (by decide) (by decide) (by decide) (by decide)

theorem fetchTidyGo_attempts (net : Nat → HttpOutcome) (mr : Nat) :
    ∀ fuel a L, (fetchTidyGo net mr fuel a L).attempts ≤ fuel := by
  intro fuel
  induction fuel with
  | zero => intro a L; simp [fetchTidyGo]
  | succ n ih =>
    intro a L
    cases h : runAttempt (net a) with
    | inl r =>
      cases r with
      | ok obs => simp [fetchTidyGo, h]
      | error e =>
        simp only [fetchTidyGo, h]
        exact Nat.succ_le_succ (ih (a + 1) (some e))
    | inr u =>
      simp only [fetchTidyGo, h]
      exact Nat.succ_le_succ (ih (a + 1) L)

theorem fetchTidyGo_sleeps (net : Nat → HttpOutcome) (mr : Nat) :
    ∀ fuel a L i, ∀ hi : i < (fetchTidyGo net mr fuel a L).sleeps.length,
      (fetchTidyGo net mr fuel a L).sleeps[i] =
        (if attemptTransient (net (a + i)) = true then 2 else 1) * (a + i) := by
  intro fuel
  induction fuel with
  | zero => intro a L i hi; simp [fetchTidyGo] at hi
  | succ n ih =>
    intro a L i hi
    cases h : runAttempt (net a) with
    | inl r =>
      cases r with
      | ok obs => simp [fetchTidyGo, h] at hi
      | error e =>
        simp only [fetchTidyGo, h] at hi ⊢
        cases i with
        | zero =>
          have ht : attemptTransient (net a) = false := by
            simp [attemptTransient, h]
          simp [ht]
        | succ k =>
          have hk : k < (fetchTidyGo net mr n (a + 1) (some e)).sleeps.length := by
            simpa using hi
          have hrec := ih (a + 1) (some e) k hk
          have harg : a + 1 + k = a + (k + 1) := by omega
          rw [harg] at hrec
          simpa using hrec
    | inr u =>
      simp only [fetchTidyGo, h] at hi ⊢
      cases i with
      | zero =>
        have ht : attemptTransient (net a) = true := by
          simp [attemptTransient, h]
        simp [ht]
      | succ k =>
        have hk : k < (fetchTidyGo net mr n (a + 1) L).sleeps.length := by
          simpa using hi
        have hrec := ih (a + 1) L k hk
        have harg : a + 1 + k = a + (k + 1) := by omega
        rw [harg] at hrec
        simpa using hrec

theorem fetchTidyGo_exhaust (net : Nat → HttpOutcome) (mr : Nat) :
    ∀ fuel a L, (∀ j, a ≤ j → j < a + fuel → attemptSucceeds (net j) = false) →
      (fetchTidyGo net mr fuel a L).result =
        .error (fetchFinalErr mr (collectLast net a fuel L)) := by
  intro fuel
  induction fuel with
  | zero => intro a L _; simp [fetchTidyGo, collectLast]
  | succ n ih =>
    intro a L h
    cases hr : runAttempt (net a) with
    | inl r =>
      cases r with
      | ok obs =>
        have hfail := h a le_rfl (by omega)
        simp [attemptSucceeds, hr] at hfail
      | error e =>
        simp only [fetchTidyGo, hr]
        rw [ih (a + 1) (some e) (fun j h1 h2 => h j (by omega) (by omega))]
        have hcl : collectLast net a (n + 1) L = collectLast net (a + 1) n (some e) := by
          simp [collectLast, hr]
        rw [hcl]
    | inr u =>
      simp only [fetchTidyGo, hr]
      rw [ih (a + 1) L (fun j h1 h2 => h j (by omega) (by omega))]
      have hcl : collectLast net a (n + 1) L = collectLast net (a + 1) n L := by
        simp [collectLast, hr]
      rw [hcl]

/-- Claim C6: `fetch_bls_tidy` issues at most `max_retries` requests, sleeps
`2 * attemptNumber` seconds after a transient status in {429, 500, 502, 503,
504} and `1 * attemptNumber` seconds after any other caught exception, and on
exhausting the budget raises a `BLSError` carrying the last caught cause. -/
theorem retry_policy (sids : List String) (version : String)
    (net : Nat → HttpOutcome) (m : Nat) :
    (fetch_bls_tidy sids version net m).attempts ≤ m ∧
    (∀ i, ∀ hi : i < (fetch_bls_tidy sids version net m).sleeps.length,
      (fetch_bls_tidy sids version net m).sleeps[i] =
        (if attemptTransient (net (1 + i)) = true then 2 else 1) * (1 + i)) ∧
    ((version = "v2" ∨ version = "v1") →
      (∀ j, 1 ≤ j → j ≤ m → attemptSucceeds (net j) = false) →
      (fetch_bls_tidy sids version net m).result =
        .error (fetchFinalErr m (collectLast net 1 m none))) := by
  by_cases hv : version = "v2" ∨ version = "v1"
  · have hred : fetch_bls_tidy sids version net m = fetchTidyGo net m m 1 none := by
      simp [fetch_bls_tidy, hv]
    rw [hred]
    refine ⟨fetchTidyGo_attempts net m m 1 none, ?_, ?_⟩
    · intro i hi
      exact fetchTidyGo_sleeps net m m 1 none i hi
    · intro _ hfail
      exact fetchTidyGo_exhaust net m m 1 none (fun j h1 h2 => hfail j h1 (by omega))
  · have hred : fetch_bls_tidy sids version net m =
        { result := .error (.valueError "api_version must be one of ['v2', 'v1']"),
          sleeps := [], attempts := 0 } := by
      simp [fetch_bls_tidy, hv]
    rw [hred]
    exact ⟨by simp, by intro i hi; simp at hi, fun hv' _ => absurd hv' hv⟩

theorem retry_policy_witness :
    (fetch_bls_tidy [] "v2" c6Net 2).attempts ≤ 2 ∧
    (fetch_bls_tidy [] "v2" c6Net 2).sleeps.get ⟨0, by decide⟩ =
      (if attemptTransient (c6Net (1 + 0)) = true then 2 else 1) * (1 + 0) ∧
    (fetch_bls_tidy [] "v2" c6Net 2).result =
      .error (fetchFinalErr 2 (collectLast c6Net 1 2 none)) :=
  ⟨(retry_policy [] "v2" c6Net 2).1,
    (retry_policy [] "v2" c6Net 2).2.1 0 (by decide),
    (retry_policy [] "v2" c6Net 2).2.2 (Or.inl rfl)
      (fun j h1 h2 => by interval_cases j <;> rfl)⟩

theorem collectItems_ok {sid : String} {items : List RespItem} {os : List Obs}
    (h : collectItems sid items = .ok os) :
    os = items.filterMap (obsOfItem sid) ∧
      ∀ item ∈ items, ∃ o, processItem sid item = .ok o := by
  induction items generalizing os with
  | nil =>
    simp only [collectItems] at h
    cases h
    simp
  | cons item rest ih =>
    simp only [collectItems] at h
    cases hp : processItem sid item with
    | error e => rw [hp] at h; cases h
    | ok o =>
      rw [hp] at h
      cases hc : collectItems sid rest with
      | error e => rw [hc] at h; cases h
      | ok os' =>
        rw [hc] at h
        rcases ih hc with ⟨h1, h2⟩
        have hmem : ∀ it ∈ item :: rest, ∃ o', processItem sid it = .ok o' := by
          intro it hit
          rcases List.mem_cons.1 hit with rfl | hit'
          · exact ⟨o, hp⟩
          · exact h2 it hit'
        cases o with
        | none =>
          cases h
          refine ⟨?_, hmem⟩
          rw [List.filterMap_cons]
          have hoi : obsOfItem sid item = none := by simp [obsOfItem, hp]
          rw [hoi, h1]
        | some obs =>
          cases h
          refine ⟨?_, hmem⟩
          rw [List.filterMap_cons]
          have hoi : obsOfItem sid item = some obs := by simp [obsOfItem, hp]
          rw [hoi, h1]

theorem collectSeries_ok {sl : List RespSeries} {rows : List Obs}
    (h : collectSeries sl = .ok rows) :
    rows = (sl.map (fun s => s.data.filterMap (obsOfItem s.seriesID))).flatten ∧
      ∀ s ∈ sl, ∀ item ∈ s.data, ∃ o, processItem s.seriesID item = .ok o := by
  induction sl generalizing rows with
  | nil =>
    simp only [collectSeries] at h
    cases h
    simp
  | cons s rest ih =>
    simp only [collectSeries] at h
    cases hi : collectItems s.seriesID s.data with
    | error e => rw [hi] at h; cases h
    | ok a =>
      rw [hi] at h
      cases hc : collectSeries rest with
      | error e => rw [hc] at h; cases h
      | ok b =>
        rw [hc] at h
        cases h
        rcases collectItems_ok hi with ⟨ha1, ha2⟩
        rcases ih hc with ⟨hb1, hb2⟩
        refine ⟨?_, ?_⟩
        · rw [List.map_cons, List.flatten_cons, ha1, hb1]
        · intro s' hs' item hitem
          rcases List.mem_cons.1 hs' with rfl | hs''
          · exact ha2 item hitem
          · exact hb2 s' hs'' item hitem

theorem tidyOfPayload_ok {p : Payload} {obsList : List Obs}
    (h : tidyOfPayload p = .ok obsList) :
    ∃ rows, collectSeries (extractSeriesList p.results) = .ok rows ∧
      obsList = List.insertionSort obsLe (rows.filter (fun o => o.value.isSome)) := by
  unfold tidyOfPayload at h
  split at h
  · cases h
  · split at h
    · cases h
    · rename_i s rest heq
      split at h
      · cases h
      · rename_i rows hc
        split at h
        · cases h
        · cases h
          refine ⟨rows, ?_, rfl⟩
          rw [heq]
          exact hc

theorem processItem_value_blind (sid : String) (it : RespItem) (v : Option Rat) :
    (∃ o, processItem sid it = .ok o) ↔
      (∃ o, processItem sid { it with value := v } = .ok o) := by
  cases hper : it.period with
  | none => simp [processItem, hper]
  | some pc =>
    by_cases hpass : monthPasses pc = true
    · cases hd : parseDigits pc.data.tail with
      | none => simp [processItem, hper, hpass, hd]
      | some mth =>
        by_cases hv : 1 ≤ mth ∧ mth ≤ 12
        · simp [processItem, hper, hpass, hd, hv]
        · simp [processItem, hper, hpass, hd, hv]
    · simp [processItem, hper, hpass]

/-- Claim C7: an entry of a response processed by the Client appears in the
tidy output exactly when its period passes the monthly filter and its value
parsed to a number; a period of `"M13"` (annual average) is always skipped,
whatever the response shape; and whether an entry's value parses never
affects whether entry processing raises. -/
theorem period_filter (pay : Payload) (obsList : List Obs) (s : RespSeries)
    (item : RespItem)
    (hok : tidyOfPayload pay = .ok obsList)
    (hs : s ∈ extractSeriesList pay.results) (hitem : item ∈ s.data) :
    ((∃ o, obsOfItem s.seriesID item = some o ∧ o ∈ obsList) ↔
      ((∃ pc, item.period = some pc ∧ monthPasses pc = true) ∧
        item.value.isSome = true)) ∧
    (∀ sid : String, ∀ it : RespItem, it.period = some "M13" →
      processItem sid it = .ok none ∧ obsOfItem sid it = none) ∧
    monthPasses "M13" = false ∧
    (∀ sid : String, ∀ it : RespItem, ∀ v : Option Rat,
      ((∃ o, processItem sid it = .ok o) ↔
        (∃ o, processItem sid { it with value := v } = .ok o))) := by
  have h13 : monthPasses "M13" = false := by decide
  rcases tidyOfPayload_ok hok with ⟨rows, hrows, hsort⟩
  rcases collectSeries_ok hrows with ⟨hflat, hall⟩
  refine ⟨?_, ?_, h13, processItem_value_blind⟩
  · constructor
    · rintro ⟨o, ho, hmem⟩
      rcases hall s hs item hitem with ⟨o', hporig⟩
      have ho2 : o' = some o := by
        have hoo : obsOfItem s.seriesID item = o' := by simp [obsOfItem, hporig]
        rw [hoo] at ho
        exact ho
      subst ho2
      have hvs : o.value.isSome = true := by
        rw [hsort] at hmem
        exact (List.mem_filter.1 ((List.mem_insertionSort obsLe).1 hmem)).2
      have hp := hporig
      cases hper : item.period with
      | none => simp [processItem, hper] at hp
      | some pc =>
        simp only [processItem, hper] at hp
        by_cases hpass : monthPasses pc = true
        · rw [if_pos hpass] at hp
          split at hp
          · cases hp
          · rename_i mth hd
            split at hp
            · cases hp
              exact ⟨⟨pc, rfl, hpass⟩, hvs⟩
            · cases hp
        · rw [if_neg hpass] at hp
          cases hp
    · rintro ⟨⟨pc, hpc, hpass⟩, hval⟩
      rcases hall s hs item hitem with ⟨o', hporig⟩
      have hp := hporig
      simp only [processItem, hpc] at hp
      rw [if_pos hpass] at hp
      split at hp
      · cases hp
      · rename_i mth hd
        split at hp
        · cases hp
          refine ⟨Obs.mk (Date.ofYM item.year mth) s.seriesID item.value
              (joinFootnotes item.footnotes),
            by simp [obsOfItem, hporig], ?_⟩
          rw [hsort]
          refine (List.mem_insertionSort obsLe).2 (List.mem_filter.2 ⟨?_, hval⟩)
          rw [hflat]
          refine List.mem_flatten.2 ⟨s.data.filterMap (obsOfItem s.seriesID),
            List.mem_map.2 ⟨s, hs, rfl⟩, ?_⟩
          exact List.mem_filterMap.2 ⟨item, hitem, by simp [obsOfItem, hporig]⟩
        · cases hp
  · intro sid it h13p
    have hpi : processItem sid it = .ok none := by
      simp [processItem, h13p, h13]
    exact ⟨hpi, by simp [obsOfItem, hpi]⟩

theorem period_filter_witness :
    ((∃ o, obsOfItem c7Series.seriesID c7ItemMay = some o ∧ o ∈ c7Out) ↔
      ((∃ pc, c7ItemMay.period = some pc ∧ monthPasses pc = true) ∧
        c7ItemMay.value.isSome = true)) ∧
    (∀ sid : String, ∀ it : RespItem, it.period = some "M13" →
      processItem sid it = .ok none ∧ obsOfItem sid it = none) ∧
    monthPasses "M13" = false ∧
    (∀ sid : String, ∀ it : RespItem, ∀ v : Option Rat,
      ((∃ o, processItem sid it = .ok o) ↔
        (∃ o, processItem sid { it with value := v } = .ok o))) :=
  period_filter c7Pay c7Out c7Series c7ItemMay rfl (by decide) (by decide)

/-- Claim C5, counterexample: series `"B"` is requested, the provider reports
no observations for it, and the wide result has no `"B"` column — the pivot
creates columns only for series present in the tidy rows, contradicting "one
column per requested SeriesID". -/
theorem fetch_wide_missing_requested_column :
    "B" ∈ ["A", "B"] ∧
    fetch_bls_wide ["A", "B"] "v2" c5Net = .ok c5Expected ∧
    "B" ∉ c5Expected.cols :=
  ⟨by decide, rfl, by decide⟩

theorem pairwise_lt_of_sorted_nodup {l : List Int}
    (hs : List.Sorted (· ≤ ·) l) (hn : l.Nodup) :
    List.Pairwise (· < ·) l :=
  (hs.and hn).imp (fun h => lt_of_le_of_ne h.1 h.2)

theorem lookup_pivot_none (i : Int) (c : String) :
    ∀ obs : List Obs, (∀ o ∈ obs, o.date.idx = i → o.seriesId ≠ c) →
    lookupCell c (obs.filterMap (fun o' =>
      if o'.date.idx = i then o'.value.map (fun v => (o'.seriesId, v)) else none))
      = none := by
  intro obs
  induction obs with
  | nil => intro _; rfl
  | cons a rest ih =>
    intro h
    rw [List.filterMap_cons]
    by_cases hai : a.date.idx = i
    · rw [if_pos hai]
      cases hv : a.value with
      | none =>
        simp only [Option.map_none']
        exact ih (fun o ho => h o (List.mem_cons_of_mem a ho))
      | some v =>
        simp only [Option.map_some']
        show lookupCell c ((a.seriesId, v) :: _) = none
        rw [lookupCell, if_neg (h a (List.mem_cons_self a rest) hai)]
        exact ih (fun o ho => h o (List.mem_cons_of_mem a ho))
    · rw [if_neg hai]
      exact ih (fun o ho => h o (List.mem_cons_of_mem a ho))

theorem lookup_pivot_cells (i : Int) (c : String) :
    ∀ obs : List Obs, hasDupKey (pivotKeys obs) = false →
    ∀ o ∈ obs, o.date.idx = i → o.seriesId = c →
    lookupCell c (obs.filterMap (fun o' =>
      if o'.date.idx = i then o'.value.map (fun v => (o'.seriesId, v)) else none))
      = o.value := by
  intro obs
  induction obs with
  | nil => intro _ o ho; simp at ho
  | cons a rest ih =>
    intro hnd o ho hoi hoc
    have hnd' : (pivotKeys rest).contains (a.date.idx, a.seriesId) = false ∧
        hasDupKey (pivotKeys rest) = false := by
      have : hasDupKey ((a.date.idx, a.seriesId) :: pivotKeys rest) = false := hnd
      rw [hasDupKey] at this
      exact Bool.or_eq_false_iff.1 this
    rcases List.mem_cons.1 ho with rfl | hor
    · rw [List.filterMap_cons, if_pos hoi]
      cases hv : o.value with
      | none =>
        simp only [Option.map_none']
        refine lookup_pivot_none i c rest ?_
        intro o' ho' hoi' hoc'
        have : (o'.date.idx, o'.seriesId) = (o.date.idx, o.seriesId) := by
          rw [hoi', hoc', hoi, hoc]
        have hmem : (o.date.idx, o.seriesId) ∈ pivotKeys rest := by
          rw [← this]
          exact List.mem_map.2 ⟨o', ho', rfl⟩
        have := hnd'.1
        simp at this
        exact this hmem
      | some v =>
        simp only [Option.map_some']
        show lookupCell c ((o.seriesId, v) :: _) = some v
        rw [lookupCell, if_pos hoc]
    · rw [List.filterMap_cons]
      by_cases hai : a.date.idx = i
      · have hac : a.seriesId ≠ c := by
          intro hEq
          have hmem : (a.date.idx, a.seriesId) ∈ pivotKeys rest := by
            have : (a.date.idx, a.seriesId) = (o.date.idx, o.seriesId) := by
              rw [hai, hEq, hoi, hoc]
            rw [this]
            exact List.mem_map.2 ⟨o, hor, rfl⟩
          have := hnd'.1
          simp at this
          exact this hmem
        rw [if_pos hai]
        cases hv : a.value with
        | none =>
          simp only [Option.map_none']
          exact ih hnd'.2 o hor hoi hoc
        | some v =>
          simp only [Option.map_some']
          show lookupCell c ((a.seriesId, v) :: _) = o.value
          rw [lookupCell, if_neg hac]
          exact ih hnd'.2 o hor hoi hoc
      · rw [if_neg hai]
        exact ih hnd'.2 o hor hoi hoc

theorem pivotFrame_nodup_dates (obs : List Obs) :
    ((pivotFrame obs).rows.map (fun r => r.date)).Nodup := by
  unfold pivotFrame
  simp only [Frame.rows_mk, List.map_map]
  refine List.Nodup.map ?_ ?_
  · intro x y hxy
    exact congrArg Date.idx hxy
  · exact (List.perm_insertionSort _ _).nodup_iff.2
      (List.nodup_dedup _)

theorem pivot_row_mem {obs : List Obs} {o : Obs} (ho : o ∈ obs) :
    (Row.mk o.date (obs.filterMap (fun o' =>
      if o'.date.idx = o.date.idx then o'.value.map (fun v => (o'.seriesId, v))
      else none))) ∈ (pivotFrame obs).rows := by
  unfold pivotFrame
  simp only [Frame.rows_mk]
  refine List.mem_map.2 ⟨o.date.idx, ?_, rfl⟩
  refine (List.mem_insertionSort _).2 (List.mem_dedup.2 ?_)
  exact List.mem_map.2 ⟨o, ho, rfl⟩

/-- Claim C5, amended: `fetch_bls_wide` propagates every `fetch_bls_tidy`
failure unchanged, and on success pivots the tidy rows into the wide shape
with one column per SeriesID *present in the tidy result* (a requested
SeriesID with no observations yields no column), rows strictly ascending by
date, each tidy observation readable back at its (date, series) cell. -/
theorem fetch_wide_pivot (sids : List String) (version : String)
    (net : Nat → HttpOutcome) :
    (∀ e, (fetch_bls_tidy sids version net 3).result = .error e →
      fetch_bls_wide sids version net = .error e) ∧
    (∀ obs, (fetch_bls_tidy sids version net 3).result = .ok obs →
      hasDupKey (pivotKeys obs) = false →
      fetch_bls_wide sids version net = .ok (pivotFrame obs) ∧
      (pivotFrame obs).cols = List.insertionSort (fun a b => pyStrLe a b = true)
        ((obs.map (fun o => o.seriesId)).dedup) ∧
      List.Pairwise rowLt (pivotFrame obs).rows ∧
      (∀ o ∈ obs, frameAt (pivotFrame obs) o.date o.seriesId = o.value)) := by
  constructor
  · intro e he
    unfold fetch_bls_wide
    rw [he]
  · intro obs hobs hnd
    refine ⟨?_, rfl, ?_, ?_⟩
    · unfold fetch_bls_wide
      rw [hobs]
      show pivotWide obs = .ok (pivotFrame obs)
      unfold pivotWide
      rw [if_neg (by simp [hnd])]
    · unfold pivotFrame
      simp only [Frame.rows_mk]
      refine List.pairwise_map.2 ?_
      have hsorted : List.Sorted (· ≤ ·)
          (List.insertionSort (· ≤ ·) ((obs.map (fun o => o.date.idx)).dedup)) := by
        have := List.sorted_insertionSort (α := Int) (· ≤ ·)
          ((obs.map (fun o => o.date.idx)).dedup)
        exact this
      have hnodup : (List.insertionSort (· ≤ ·)
          ((obs.map (fun o => o.date.idx)).dedup)).Nodup :=
        (List.perm_insertionSort _ _).nodup_iff.2 (List.nodup_dedup _)
      exact (pairwise_lt_of_sorted_nodup hsorted hnodup).imp (fun h => h)
    · intro o ho
      unfold frameAt
      have hrowmem := pivot_row_mem ho
      have hlast := lastD_self (pivotFrame_nodup_dates obs) hrowmem
      have hdate : (Row.mk o.date (obs.filterMap (fun o' =>
          if o'.date.idx = o.date.idx then o'.value.map (fun v => (o'.seriesId, v))
          else none))).date = o.date := rfl
      rw [hdate] at hlast
      rw [hlast]
      show lookupCell o.seriesId _ = o.value
      exact lookup_pivot_cells o.date.idx o.seriesId obs hnd o ho rfl rfl

theorem fetch_wide_pivot_witness :
    fetch_bls_wide ["A", "B"] "v2" c5Net = .ok (pivotFrame [c5Obs]) ∧
    List.Pairwise rowLt (pivotFrame [c5Obs]).rows :=
  ⟨((fetch_wide_pivot ["A", "B"] "v2" c5Net).2 [c5Obs] rfl (by decide)).1,
    ((fetch_wide_pivot ["A", "B"] "v2" c5Net).2 [c5Obs] rfl (by decide)).2.2.1⟩

end USLabor
